import Mathlib

/-!
Verification development for the GopherStore in-memory key/value store.

Shallow embedding conventions:
* bytes are `Nat` (one byte per list element; `13`/`10` are CR/LF),
  Go `[]byte` and `string` are `List Nat`, `nil` slices are `Option`;
* Go `int`/`int64` are `Int` with explicit range checks where `strconv`
  performs them;
* fallible Go functions return `Except`/`Option`; runtime panics are an
  explicit constructor of the decoder result type;
* the store's `time.Now()` is an explicit `now : Int` parameter
  (UnixNano), and map iteration order is an explicit list parameter.
-/

namespace GopherStore

deriving instance DecidableEq for Except

/-- ASCII bytes of a string literal, for readable concrete inputs. -/
def strBytes (s : String) : List Nat := s.data.map Char.toNat

/-- Keys of the store: Go map keys `string(key)`. -/
abbrev Key := List Nat

namespace util

/-- Decimal digits of `n`, most significant first, as ASCII bytes
(`strconv.Itoa`/`FormatInt` output for a non-negative value). -/
def formatNat (n : Nat) : List Nat :=
  if n = 0 then [48] else ((Nat.digits 10 n).reverse.map (fun d => 48 + d))

/-- `strconv.FormatInt (base 10)`: optional minus sign plus decimal digits. -/
def formatInt (n : Int) : List Nat :=
  if n < 0 then 45 :: formatNat n.natAbs else formatNat n.toNat

/-- Digit-accumulating loop of `strconv.ParseInt`: consumes ASCII digits. -/
def parseDigitsAux : List Nat → Nat → Option Nat
  | [], acc => some acc
  | c :: cs, acc =>
    if 48 ≤ c ∧ c ≤ 57 then parseDigitsAux cs (acc * 10 + (c - 48)) else none

/-- Digit run of `strconv.ParseInt`: at least one digit is required. -/
def parseDigits (l : List Nat) : Option Nat :=
  if l = [] then none else parseDigitsAux l 0

/-- `2 ^ 63 - 1`, the largest int64. -/
def int64Max : Int := 9223372036854775807

/-- `2 ^ 63`, the magnitude of the smallest int64. -/
def int64MinAbs : Int := 9223372036854775808

/-- `strconv.ParseInt(s, 10, 64)`: optional sign (`-` is byte 45, `+` is
43), decimal digits, 64-bit range check (out-of-range input is an error,
modelled as `none`). -/
def goParseInt64 (s : List Nat) : Option Int :=
  match s with
  | [] => none
  | c :: rest =>
    if c = 45 then
      (parseDigits rest).bind fun m =>
        if (m : Int) ≤ int64MinAbs then some (-(m : Int)) else none
    else if c = 43 then
      (parseDigits rest).bind fun m =>
        if (m : Int) ≤ int64Max then some (m : Int) else none
    else
      (parseDigits (c :: rest)).bind fun m =>
        if (m : Int) ≤ int64Max then some (m : Int) else none

/-- `strconv.Atoi` on a 64-bit platform. -/
def goAtoi : List Nat → Option Int := goParseInt64

/-- `util.ParsePositiveInt`: `Atoi`, then reject `n < 0` (note: zero is
accepted by the source). `none` models the `(0, false)` return. -/
def ParsePositiveInt (s : List Nat) : Option Int :=
  match goAtoi s with
  | none => none
  | some n => if n < 0 then none else some n

/-- `util.ReverseSlice`: the in-place two-pointer swap loop computes the
reversal of the slice. -/
def ReverseSlice (s : List α) : List α := s.reverse

/-- `util.SliceList`: negative indices count from the tail, `start` is
clamped to `≥ 0`, `end` to `≤ len-1`, empty when `start > end` after
clamping, otherwise the Go slice `list[start : end+1]`. -/
def SliceList (list : List α) (start end' : Int) : List α :=
  let length : Int := list.length
  let startIndex := if start < 0 then length + start else start
  let endIndex := if end' < 0 then length + end' else end'
  let s1 : Int := max 0 startIndex
  let e1 : Int := min (length - 1) endIndex
  if s1 > e1 then [] else (list.drop s1.toNat).take (e1 + 1 - s1).toNat

theorem parseDigitsAux_map (ds : List Nat) (h : ∀ d ∈ ds, d < 10) (acc : Nat) :
    parseDigitsAux (ds.map (fun d => 48 + d)) acc =
      some (List.foldl (fun a d => a * 10 + d) acc ds) := by
  induction ds generalizing acc with
  | nil => rfl
  | cons d ds ih =>
    have hd : d < 10 := h d (by simp)
    have hcond : 48 ≤ 48 + d ∧ 48 + d ≤ 57 := by omega
    simp only [List.map_cons, parseDigitsAux, if_pos hcond, List.foldl_cons]
    have : 48 + d - 48 = d := by omega
    rw [this]
    exact ih (fun x hx => h x (by simp [hx])) _

theorem foldl_digit_reverse (l : List Nat) (acc : Nat) :
    List.foldl (fun a d => a * 10 + d) acc l.reverse =
      acc * 10 ^ l.length + Nat.ofDigits 10 l := by
  induction l generalizing acc with
  | nil => simp
  | cons d ds ih =>
    simp only [List.reverse_cons, List.foldl_append, List.foldl_cons,
      List.foldl_nil, ih, Nat.ofDigits_cons, List.length_cons]
    ring

theorem parseDigits_formatNat (n : Nat) : parseDigits (formatNat n) = some n := by
  by_cases h0 : n = 0
  · subst h0
    simp [formatNat, parseDigits, parseDigitsAux]
  · have hne : Nat.digits 10 n ≠ [] := Nat.digits_ne_nil_iff_ne_zero.mpr h0
    have hlt : ∀ d ∈ (Nat.digits 10 n).reverse, d < 10 := by
      intro d hd
      exact Nat.digits_lt_base (by norm_num) (List.mem_reverse.mp hd)
    have hnil : ((Nat.digits 10 n).reverse.map (fun d => 48 + d)) ≠ [] := by
      simp [hne]
    simp only [formatNat, if_neg h0, parseDigits, if_neg hnil]
    rw [parseDigitsAux_map _ hlt 0, foldl_digit_reverse]
    simp [Nat.ofDigits_digits]

theorem formatNat_mem (n : Nat) : ∀ c ∈ formatNat n, 48 ≤ c ∧ c ≤ 57 := by
  intro c hc
  unfold formatNat at hc
  by_cases h0 : n = 0
  · simp [h0] at hc
    omega
  · simp only [if_neg h0, List.mem_map, List.mem_reverse] at hc
    obtain ⟨d, hd, rfl⟩ := hc
    have := Nat.digits_lt_base (by norm_num) hd
    omega

theorem formatNat_ne_nil (n : Nat) : formatNat n ≠ [] := by
  unfold formatNat
  by_cases h0 : n = 0
  · simp [h0]
  · simp [h0, Nat.digits_ne_nil_iff_ne_zero.mpr h0]

theorem goParseInt64_formatNat (n : Nat) (h : (n : Int) ≤ int64Max) :
    goParseInt64 (formatNat n) = some (n : Int) := by
  rcases hfn : formatNat n with _ | ⟨c, cs⟩
  · exact absurd hfn (formatNat_ne_nil n)
  · have hc : 48 ≤ c ∧ c ≤ 57 := by
      apply formatNat_mem n
      rw [hfn]
      simp
    have hparse : parseDigits (c :: cs) = some n := by
      rw [← hfn]
      exact parseDigits_formatNat n
    simp only [goParseInt64]
    rw [if_neg (show ¬c = 45 by omega), if_neg (show ¬c = 43 by omega), hparse]
    simp [h]

theorem goAtoi_formatInt (n : Int) (h1 : -int64MinAbs ≤ n) (h2 : n ≤ int64Max) :
    goAtoi (formatInt n) = some n := by
  unfold goAtoi
  by_cases hneg : n < 0
  · have hform : formatInt n = 45 :: formatNat n.natAbs := by
      unfold formatInt
      rw [if_pos hneg]
    rw [hform]
    simp only [goParseInt64, if_pos rfl]
    rw [parseDigits_formatNat]
    have hr : ((n.natAbs : Nat) : Int) ≤ int64MinAbs := by
      unfold int64MinAbs at *
      omega
    have hval : (-((n.natAbs : Nat) : Int)) = n := by omega
    show (if ((n.natAbs : Nat) : Int) ≤ int64MinAbs
        then some (-((n.natAbs : Nat) : Int)) else none) = some n
    rw [if_pos hr, hval]
  · have hform : formatInt n = formatNat n.toNat := by
      unfold formatInt
      rw [if_neg hneg]
    have hb : ((n.toNat : Nat) : Int) ≤ int64Max := by
      unfold int64Max at *
      omega
    rw [hform, goParseInt64_formatNat n.toNat hb]
    have : ((n.toNat : Nat) : Int) = n := by omega
    rw [this]

theorem formatNat_no_lf (n : Nat) : 10 ∉ formatNat n ∧ 13 ∉ formatNat n := by
  constructor <;> intro h <;> have := formatNat_mem n _ h <;> omega

theorem formatInt_no_lf (n : Int) : 10 ∉ formatInt n ∧ 13 ∉ formatInt n := by
  have ha := formatNat_no_lf n.natAbs
  have hb := formatNat_no_lf n.toNat
  unfold formatInt
  by_cases hneg : n < 0
  · rw [if_pos hneg]
    refine ⟨?_, ?_⟩ <;> intro h <;> rw [List.mem_cons] at h <;>
      rcases h with h | h
    · omega
    · exact ha.1 h
    · omega
    · exact ha.2 h
  · rw [if_neg hneg]
    exact hb

/-- `SliceList list 0 (-1)` is the whole list (LRANGE full-range form). -/
theorem SliceList_zero_neg_one (l : List α) : SliceList l 0 (-1) = l := by
  simp only [SliceList]
  norm_num

end util

namespace resp

/-- Decoded RESP values (`resp.RespSimpleString`, `RespErrorValue`,
`RespInteger`, `RespBulkString`, `RespArray`); `Option` models the Go
`nil` slice of a NIL bulk string or NIL array. -/
inductive RVal where
  | simple (s : List Nat)
  | errv (s : List Nat)
  | intv (n : Int)
  | bulk (b : Option (List Nat))
  | arr (elements : Option (List RVal))

def crlf : List Nat := [13, 10]

/-- `resp.EncodeSimpleString`: `"+" + value + "\r\n"`. -/
def EncodeSimpleString (value : List Nat) : List Nat := 43 :: (value ++ crlf)

/-- `resp.EncodeError`: `"-" + value + "\r\n"`. -/
def EncodeError (value : List Nat) : List Nat := 45 :: (value ++ crlf)

/-- `resp.EncodeBulkString`: `"$-1\r\n"` for nil, otherwise
`"$" + Itoa(len) + "\r\n" + value + "\r\n"`. -/
def EncodeBulkString : Option (List Nat) → List Nat
  | none => [36, 45, 49, 13, 10]
  | some value => 36 :: (util.formatNat value.length ++ crlf ++ value ++ crlf)

/-- `resp.EncodeInteger`: `":" + FormatInt(value, 10) + "\r\n"`. -/
def EncodeInteger (value : Int) : List Nat := 58 :: (util.formatInt value ++ crlf)

/-- `resp.EncodeBulkStringArray`: `"*-1\r\n"` for nil, `"*0\r\n"` for
empty, otherwise the count header followed by each encoded bulk string. -/
def EncodeBulkStringArray : Option (List (Option (List Nat))) → List Nat
  | none => [42, 45, 49, 13, 10]
  | some [] => [42, 48, 13, 10]
  | some elements =>
    42 :: (util.formatNat elements.length ++ crlf ++
      (elements.map EncodeBulkString).flatten)

mutual

/-- Modelled from the spec: the canonical encoding of an arbitrary RESP
value, `*<count>\r\n<count values>` for arrays (§4.1). The repository has
encoders only for the four scalar kinds and flat bulk-string arrays
(`EncodeBulkStringArray`); the general nested-array form follows the
spec's canonical on-wire table and agrees with the source encoders on
every kind the source can emit. -/
def encodeRESP : RVal → List Nat
  | .simple s => EncodeSimpleString s
  | .errv s => EncodeError s
  | .intv n => EncodeInteger n
  | .bulk b => EncodeBulkString b
  | .arr none => [42, 45, 49, 13, 10]
  | .arr (some els) => 42 :: (util.formatNat els.length ++ crlf ++ encodeList els)

/-- Concatenation of the encodings of the elements of an array. -/
def encodeList : List RVal → List Nat
  | [] => []
  | v :: vs => encodeRESP v ++ encodeList vs

end

mutual

/-- Nesting depth of a RESP value: bounds the recursion depth used by the
decoder's Go call stack. -/
def depthRV : RVal → Nat
  | .arr (some els) => depthList els + 1
  | _ => 1

def depthList : List RVal → Nat
  | [] => 0
  | v :: vs => max (depthRV v) (depthList vs)

end

mutual

/-- Well-formed values: simple strings and errors free of CR and LF
(the encoder contract of §4.1), integers in int64 range, and payload and
element counts within int64 (sizes `strconv` can reparse). -/
def wfRV : RVal → Bool
  | .simple s => s.all (fun c => !(c == 13) && !(c == 10))
  | .errv s => s.all (fun c => !(c == 13) && !(c == 10))
  | .intv n => decide (-util.int64MinAbs ≤ n ∧ n ≤ util.int64Max)
  | .bulk none => true
  | .bulk (some b) => decide ((b.length : Int) ≤ util.int64Max)
  | .arr none => true
  | .arr (some els) => decide ((els.length : Int) ≤ util.int64Max) && wfList els

def wfList : List RVal → Bool
  | [] => true
  | v :: vs => wfRV v && wfList vs

end

/-- Result of a decoder call: `ok`, a tagged codec error (`resp.RESPError`,
carrying its `Msg`), an I/O error (EOF / short read), or a Go runtime
panic. -/
inductive DRes (α : Type) where
  | ok (val : α)
  | fail (msg : String)
  | eofErr
  | panicked (msg : String)
deriving DecidableEq

/-- `bufio.Reader.ReadBytes('\n')` / `ReadString('\n')`: everything up to
and including the first LF; `none` is the error when the stream ends
first. -/
def readBytesLF : List Nat → Option (List Nat × List Nat)
  | [] => none
  | b :: rest =>
    if b = 10 then some ([b], rest)
    else (readBytesLF rest).map (fun p => (b :: p.1, p.2))

/-- `strings.TrimSuffix(s, "\r\n")`. -/
def trimSuffixCRLF (l : List Nat) : List Nat :=
  match l.reverse with
  | a :: b :: rest => if a = 10 ∧ b = 13 then rest.reverse else l
  | _ => l

/-- `resp.hasValidTerminator`: `len(bytes) > offset+1 && bytes[offset] ==
'\r' && bytes[offset+1] == '\n'`. A negative `offset` that passes the
length guard indexes out of range, which in Go is a runtime panic. -/
def hasValidTerminator (bs : List Nat) (offset : Int) : DRes Bool :=
  if (bs.length : Int) > offset + 1 then
    if offset < 0 then .panicked ("runtime error: index out of range")
    else .ok ((bs.getD offset.toNat 0 == 13) && (bs.getD (offset.toNat + 1) 0 == 10))
  else .ok false

/-- `resp.readAndParseLength`: read a CRLF-terminated line and `Atoi` it. -/
def readAndParseLength (input : List Nat) : DRes Int × List Nat :=
  match readBytesLF input with
  | none => (.eofErr, [])
  | some (line, rest) =>
    match util.goAtoi (trimSuffixCRLF line) with
    | none => (.fail ("invalid length"), rest)
    | some n => (.ok n, rest)

/-- `resp.ReadBulkString` (after the `$` tag byte): `-1` is NIL; the Go
source then runs `make([]byte, count+2)` (a runtime panic when
`count+2 < 0`), `io.ReadFull`, and `hasValidTerminator(bytes, count)`
(a runtime panic by out-of-range index when `count` is `-2`). -/
def ReadBulkString (input : List Nat) : DRes (Option (List Nat)) × List Nat :=
  match readAndParseLength input with
  | (.ok count, rest) =>
    if count = -1 then (.ok none, rest)
    else if count + 2 < 0 then
      (.panicked ("runtime error: makeslice: len out of range"), rest)
    else
      let n := (count + 2).toNat
      if rest.length < n then (.eofErr, rest.drop n)
      else
        let bs := rest.take n
        match hasValidTerminator bs count with
        | .panicked m => (.panicked m, rest.drop n)
        | .ok true => (.ok (some (bs.take count.toNat)), rest.drop n)
        | _ => (.fail ("bulk string not terminated properly"), rest.drop n)
  | (.fail m, rest) => (.fail m, rest)
  | (.eofErr, rest) => (.eofErr, rest)
  | (.panicked m, rest) => (.panicked m, rest)

/-- `resp.ReadSimpleString` (after the `+` tag byte). -/
def ReadSimpleString (input : List Nat) : DRes (List Nat) × List Nat :=
  match readBytesLF input with
  | none => (.eofErr, [])
  | some (line, rest) =>
    match hasValidTerminator line ((line.length : Int) - 2) with
    | .panicked m => (.panicked m, rest)
    | .ok true => (.ok (trimSuffixCRLF line), rest)
    | _ => (.fail ("simple string not terminated properly"), rest)

/-- `resp.ReadError` (after the `-` tag byte). -/
def ReadError (input : List Nat) : DRes (List Nat) × List Nat :=
  match readBytesLF input with
  | none => (.eofErr, [])
  | some (line, rest) =>
    match hasValidTerminator line ((line.length : Int) - 2) with
    | .panicked m => (.panicked m, rest)
    | .ok true => (.ok (trimSuffixCRLF line), rest)
    | _ => (.fail ("error not terminated properly"), rest)

/-- `resp.ReadInteger` (after the `:` tag byte). -/
def ReadInteger (input : List Nat) : DRes Int × List Nat :=
  match readBytesLF input with
  | none => (.eofErr, [])
  | some (line, rest) =>
    match hasValidTerminator line ((line.length : Int) - 2) with
    | .panicked m => (.panicked m, rest)
    | .ok true =>
      match util.goParseInt64 (trimSuffixCRLF line) with
      | some v => (.ok v, rest)
      | none => (.fail ("invalid integer"), rest)
    | _ => (.fail ("integer not terminated properly"), rest)

mutual

/-- `resp.ReadRESP`: dispatch on the one-byte tag. The `fuel` parameter
models the Go call stack of the mutual recursion with `ReadArray`; any
fuel above the value's nesting depth is enough. -/
def ReadRESP : Nat → List Nat → DRes RVal × List Nat
  | _, [] => (.eofErr, [])
  | fuel, b :: input =>
    if b = 42 then
      match fuel with
      | 0 => (.fail ("nesting too deep"), input)
      | fuel' + 1 => ReadArray fuel' input
    else if b = 36 then
      match ReadBulkString input with
      | (.ok v, rest) => (.ok (.bulk v), rest)
      | (.fail m, rest) => (.fail m, rest)
      | (.eofErr, rest) => (.eofErr, rest)
      | (.panicked m, rest) => (.panicked m, rest)
    else if b = 43 then
      match ReadSimpleString input with
      | (.ok v, rest) => (.ok (.simple v), rest)
      | (.fail m, rest) => (.fail m, rest)
      | (.eofErr, rest) => (.eofErr, rest)
      | (.panicked m, rest) => (.panicked m, rest)
    else if b = 45 then
      match ReadError input with
      | (.ok v, rest) => (.ok (.errv v), rest)
      | (.fail m, rest) => (.fail m, rest)
      | (.eofErr, rest) => (.eofErr, rest)
      | (.panicked m, rest) => (.panicked m, rest)
    else if b = 58 then
      match ReadInteger input with
      | (.ok v, rest) => (.ok (.intv v), rest)
      | (.fail m, rest) => (.fail m, rest)
      | (.eofErr, rest) => (.eofErr, rest)
      | (.panicked m, rest) => (.panicked m, rest)
    else (.fail ("unknown RESP type prefix"), input)
termination_by fuel _ => (fuel, 1, 0)

/-- `resp.ReadArray` (after the `*` tag byte): `-1` is NIL; the Go source
then runs `make([]RespValue, 0, count)` (a runtime panic when `count` is
any other negative) and decodes `count` elements recursively. -/
def ReadArray (fuel : Nat) (input : List Nat) : DRes RVal × List Nat :=
  match readAndParseLength input with
  | (.ok count, rest) =>
    if count = -1 then (.ok (.arr none), rest)
    else if count < -1 then
      (.panicked ("runtime error: makeslice: cap out of range"), rest)
    else
      match readElems fuel count.toNat rest with
      | (.ok vs, rest') => (.ok (.arr (some vs)), rest')
      | (.fail m, rest') => (.fail m, rest')
      | (.eofErr, rest') => (.eofErr, rest')
      | (.panicked m, rest') => (.panicked m, rest')
  | (.fail m, rest) => (.fail m, rest)
  | (.eofErr, rest) => (.eofErr, rest)
  | (.panicked m, rest) => (.panicked m, rest)
termination_by (fuel, 3, 0)

/-- The element loop of `resp.ReadArray`. -/
def readElems : Nat → Nat → List Nat → DRes (List RVal) × List Nat
  | _, 0, input => (.ok [], input)
  | fuel, n + 1, input =>
    match ReadRESP fuel input with
    | (.ok v, rest) =>
      match readElems fuel n rest with
      | (.ok vs, rest') => (.ok (v :: vs), rest')
      | (.fail m, rest') => (.fail m, rest')
      | (.eofErr, rest') => (.eofErr, rest')
      | (.panicked m, rest') => (.panicked m, rest')
    | (.fail m, rest) => (.fail m, rest)
    | (.eofErr, rest) => (.eofErr, rest)
    | (.panicked m, rest) => (.panicked m, rest)
termination_by fuel n _ => (fuel, 2, n)

end

theorem readBytesLF_append (l rest : List Nat) (h : 10 ∉ l) :
    readBytesLF (l ++ 10 :: rest) = some (l ++ [10], rest) := by
  induction l with
  | nil => simp [readBytesLF]
  | cons b bs ih =>
    have hb : ¬b = 10 := by
      intro hb
      exact h (by simp [hb])
    have hbs : 10 ∉ bs := fun hx => h (by simp [hx])
    simp [readBytesLF, hb, ih hbs]

theorem readLine_header (l rest : List Nat) (h : 10 ∉ l) :
    readBytesLF (l ++ crlf ++ rest) = some (l ++ crlf, rest) := by
  have h13 : 10 ∉ l ++ [13] := by
    intro hx
    rcases List.mem_append.mp hx with hx | hx
    · exact h hx
    · simp at hx
  have hr := readBytesLF_append (l ++ [13]) rest h13
  simpa [crlf, List.append_assoc] using hr

theorem trimSuffixCRLF_append (l : List Nat) : trimSuffixCRLF (l ++ crlf) = l := by
  unfold trimSuffixCRLF
  have hrev : (l ++ crlf).reverse = 10 :: 13 :: l.reverse := by simp [crlf]
  rw [hrev]
  simp

theorem hVT_append (v : List Nat) :
    hasValidTerminator (v ++ crlf) (v.length : Int) = .ok true := by
  unfold hasValidTerminator
  have hlen : (((v ++ crlf).length : Nat) : Int) > (v.length : Int) + 1 := by
    simp [crlf]
  rw [if_pos hlen, if_neg (by omega : ¬((v.length : Int) < 0))]
  have ht : ((v.length : Nat) : Int).toNat = v.length := by omega
  rw [ht]
  have h1 : (v ++ crlf).getD v.length 0 = 13 := by
    rw [List.getD_append_right v crlf 0 v.length le_rfl]
    simp [crlf]
  have h2 : (v ++ crlf).getD (v.length + 1) 0 = 10 := by
    rw [List.getD_append_right v crlf 0 (v.length + 1) (by omega)]
    have he : v.length + 1 - v.length = 1 := by omega
    rw [he]
    simp [crlf]
  rw [h1, h2]
  rfl

theorem readAndParseLength_format (L : Nat) (hL : (L : Int) ≤ util.int64Max)
    (rest : List Nat) :
    readAndParseLength (util.formatNat L ++ crlf ++ rest) = (.ok (L : Int), rest) := by
  have hatoi : util.goAtoi (util.formatNat L) = some (L : Int) :=
    util.goParseInt64_formatNat L hL
  unfold readAndParseLength
  simp only [readLine_header _ _ (util.formatNat_no_lf L).1, trimSuffixCRLF_append,
    hatoi]

theorem ReadBulkString_some (v rest : List Nat)
    (h : (v.length : Int) ≤ util.int64Max) :
    ReadBulkString (util.formatNat v.length ++ crlf ++ (v ++ crlf ++ rest)) =
      (.ok (some v), rest) := by
  have hne1 : ¬((v.length : Int) = -1) := by omega
  have hne2 : ¬((v.length : Int) + 2 < 0) := by omega
  have hn : ((v.length : Int) + 2).toNat = v.length + 2 := by omega
  have hX : v ++ crlf ++ rest = (v ++ crlf) ++ rest := by
    simp [List.append_assoc]
  have hvc : (v ++ crlf).length = v.length + 2 := by simp [crlf]
  have hXlen : ¬(v ++ crlf ++ rest).length < v.length + 2 := by
    simp [crlf]
  have htake : (v ++ crlf ++ rest).take (v.length + 2) = v ++ crlf := by
    rw [hX, ← hvc]
    exact List.take_left _ _
  have hdrop : (v ++ crlf ++ rest).drop (v.length + 2) = rest := by
    rw [hX, ← hvc]
    exact List.drop_left _ _
  have hvt : ((v.length : Nat) : Int).toNat = v.length := by omega
  unfold ReadBulkString
  simp only [readAndParseLength_format v.length h (v ++ crlf ++ rest),
    if_neg hne1, if_neg hne2, hn, if_neg hXlen, htake, hdrop, hVT_append v, hvt,
    List.take_left v crlf]

theorem ReadBulkString_nil (rest : List Nat) :
    ReadBulkString ([45, 49, 13, 10] ++ rest) = (.ok none, rest) := by
  have hsh : [45, 49, 13, 10] ++ rest = [45, 49, 13] ++ 10 :: rest := by simp
  have hline := readBytesLF_append [45, 49, 13] rest (by decide)
  have htrim : trimSuffixCRLF ([45, 49, 13] ++ [10]) = [45, 49] := by decide
  have hatoi : util.goAtoi [45, 49] = some (-1) := by decide
  unfold ReadBulkString readAndParseLength
  simp only [hsh, hline, htrim, hatoi, if_pos]

theorem ReadSimpleString_encode (s rest : List Nat) (h10 : 10 ∉ s) :
    ReadSimpleString (s ++ crlf ++ rest) = (.ok s, rest) := by
  have hlen : (((s ++ crlf).length : Nat) : Int) - 2 = (s.length : Int) := by
    simp [crlf]
  unfold ReadSimpleString
  simp only [readLine_header s rest h10, hlen, hVT_append s, trimSuffixCRLF_append]

theorem ReadError_encode (s rest : List Nat) (h10 : 10 ∉ s) :
    ReadError (s ++ crlf ++ rest) = (.ok s, rest) := by
  have hlen : (((s ++ crlf).length : Nat) : Int) - 2 = (s.length : Int) := by
    simp [crlf]
  unfold ReadError
  simp only [readLine_header s rest h10, hlen, hVT_append s, trimSuffixCRLF_append]

theorem ReadInteger_encode (n : Int) (h1 : -util.int64MinAbs ≤ n)
    (h2 : n ≤ util.int64Max) (rest : List Nat) :
    ReadInteger (util.formatInt n ++ crlf ++ rest) = (.ok n, rest) := by
  have hlen : (((util.formatInt n ++ crlf).length : Nat) : Int) - 2 =
      ((util.formatInt n).length : Int) := by
    simp [crlf]
  have hparse : util.goParseInt64 (util.formatInt n) = some n :=
    util.goAtoi_formatInt n h1 h2
  unfold ReadInteger
  simp only [readLine_header _ _ (util.formatInt_no_lf n).1, hlen, hVT_append _,
    trimSuffixCRLF_append, hparse]

theorem readAndParseLength_neg1 (rest : List Nat) :
    readAndParseLength ([45, 49, 13, 10] ++ rest) = (.ok (-1), rest) := by
  have hsh : [45, 49, 13, 10] ++ rest = [45, 49, 13] ++ 10 :: rest := by simp
  have hline := readBytesLF_append [45, 49, 13] rest (by decide)
  have htrim : trimSuffixCRLF ([45, 49, 13] ++ [10]) = [45, 49] := by decide
  have hatoi : util.goAtoi [45, 49] = some (-1) := by decide
  unfold readAndParseLength
  simp only [hsh, hline, htrim, hatoi]

theorem ReadRESP_tag42 (fuel : Nat) (input : List Nat) :
    ReadRESP (fuel + 1) (42 :: input) = ReadArray fuel input := by
  simp [ReadRESP]

theorem ReadRESP_tag36 (fuel : Nat) (input : List Nat) :
    ReadRESP fuel (36 :: input) =
      (match ReadBulkString input with
        | (.ok v, rest) => (.ok (.bulk v), rest)
        | (.fail m, rest) => (.fail m, rest)
        | (.eofErr, rest) => (.eofErr, rest)
        | (.panicked m, rest) => (.panicked m, rest)) := by
  rw [ReadRESP.eq_def]
  norm_num

theorem ReadRESP_tag43 (fuel : Nat) (input : List Nat) :
    ReadRESP fuel (43 :: input) =
      (match ReadSimpleString input with
        | (.ok v, rest) => (.ok (.simple v), rest)
        | (.fail m, rest) => (.fail m, rest)
        | (.eofErr, rest) => (.eofErr, rest)
        | (.panicked m, rest) => (.panicked m, rest)) := by
  rw [ReadRESP.eq_def]
  norm_num

theorem ReadRESP_tag45 (fuel : Nat) (input : List Nat) :
    ReadRESP fuel (45 :: input) =
      (match ReadError input with
        | (.ok v, rest) => (.ok (.errv v), rest)
        | (.fail m, rest) => (.fail m, rest)
        | (.eofErr, rest) => (.eofErr, rest)
        | (.panicked m, rest) => (.panicked m, rest)) := by
  rw [ReadRESP.eq_def]
  norm_num

theorem ReadRESP_tag58 (fuel : Nat) (input : List Nat) :
    ReadRESP fuel (58 :: input) =
      (match ReadInteger input with
        | (.ok v, rest) => (.ok (.intv v), rest)
        | (.fail m, rest) => (.fail m, rest)
        | (.eofErr, rest) => (.eofErr, rest)
        | (.panicked m, rest) => (.panicked m, rest)) := by
  rw [ReadRESP.eq_def]
  norm_num

theorem wf_no_lf (s : List Nat)
    (h : s.all (fun c => !(c == 13) && !(c == 10)) = true) : 10 ∉ s := by
  intro hm
  have := List.all_eq_true.mp h 10 hm
  simp at this

mutual

theorem ReadRESP_encodeRESP (fuel : Nat) (v : RVal) (hwf : wfRV v = true)
    (hd : depthRV v ≤ fuel) (rest : List Nat) :
    ReadRESP fuel (encodeRESP v ++ rest) = (.ok v, rest) := by
  cases v with
  | simple s =>
    simp only [wfRV] at hwf
    have h10 : 10 ∉ s := wf_no_lf s hwf
    have hsh : encodeRESP (.simple s) ++ rest = 43 :: ((s ++ crlf) ++ rest) := by
      simp [encodeRESP, EncodeSimpleString]
    rw [hsh, ReadRESP_tag43]
    simp only [ReadSimpleString_encode s rest h10]
  | errv s =>
    simp only [wfRV] at hwf
    have h10 : 10 ∉ s := wf_no_lf s hwf
    have hsh : encodeRESP (.errv s) ++ rest = 45 :: ((s ++ crlf) ++ rest) := by
      simp [encodeRESP, EncodeError]
    rw [hsh, ReadRESP_tag45]
    simp only [ReadError_encode s rest h10]
  | intv n =>
    simp only [wfRV, decide_eq_true_eq] at hwf
    have hsh : encodeRESP (.intv n) ++ rest =
        58 :: ((util.formatInt n ++ crlf) ++ rest) := by
      simp [encodeRESP, EncodeInteger]
    rw [hsh, ReadRESP_tag58]
    simp only [ReadInteger_encode n hwf.1 hwf.2 rest]
  | bulk b =>
    cases b with
    | none =>
      have hsh : encodeRESP (.bulk none) ++ rest =
          36 :: ([45, 49, 13, 10] ++ rest) := by
        simp [encodeRESP, EncodeBulkString]
      rw [hsh, ReadRESP_tag36]
      simp only [ReadBulkString_nil rest]
    | some bv =>
      simp only [wfRV, decide_eq_true_eq] at hwf
      have hsh : encodeRESP (.bulk (some bv)) ++ rest =
          36 :: (util.formatNat bv.length ++ crlf ++ (bv ++ crlf ++ rest)) := by
        simp [encodeRESP, EncodeBulkString, List.append_assoc]
      rw [hsh, ReadRESP_tag36]
      simp only [ReadBulkString_some bv rest hwf]
  | arr oels =>
    cases oels with
    | none =>
      have hd1 : 1 ≤ fuel := by
        simpa [depthRV] using hd
      obtain ⟨f, rfl⟩ : ∃ f, fuel = f + 1 :=
        ⟨fuel - 1, by omega⟩
      have hsh : encodeRESP (.arr none) ++ rest =
          42 :: ([45, 49, 13, 10] ++ rest) := by
        simp [encodeRESP]
      rw [hsh, ReadRESP_tag42]
      unfold ReadArray
      simp only [readAndParseLength_neg1 rest, if_pos]
    | some els =>
      simp only [wfRV, Bool.and_eq_true, decide_eq_true_eq] at hwf
      have hdep : depthList els + 1 ≤ fuel := by
        simpa [depthRV] using hd
      obtain ⟨f, rfl⟩ : ∃ f, fuel = f + 1 :=
        ⟨fuel - 1, by omega⟩
      have hdf : depthList els ≤ f := by omega
      have hsh : encodeRESP (.arr (some els)) ++ rest =
          42 :: (util.formatNat els.length ++ crlf ++ (encodeList els ++ rest)) := by
        simp [encodeRESP, List.append_assoc]
      rw [hsh, ReadRESP_tag42]
      have hne1 : ¬((els.length : Int) = -1) := by omega
      have hne2 : ¬((els.length : Int) < -1) := by omega
      have htn : ((els.length : Nat) : Int).toNat = els.length := by omega
      unfold ReadArray
      simp only [readAndParseLength_format els.length hwf.1 (encodeList els ++ rest),
        if_neg hne1, if_neg hne2, htn,
        readElems_encodeList f els hwf.2 hdf rest]

theorem readElems_encodeList (fuel : Nat) (els : List RVal)
    (hwf : wfList els = true) (hd : depthList els ≤ fuel) (rest : List Nat) :
    readElems fuel els.length (encodeList els ++ rest) = (.ok els, rest) := by
  cases els with
  | nil =>
    simp [readElems, encodeList]
  | cons e es =>
    simp only [wfList, Bool.and_eq_true] at hwf
    have hde : depthRV e ≤ fuel := by
      have : max (depthRV e) (depthList es) ≤ fuel := by
        simpa [depthList] using hd
      omega
    have hdes : depthList es ≤ fuel := by
      have : max (depthRV e) (depthList es) ≤ fuel := by
        simpa [depthList] using hd
      omega
    have hsh : encodeList (e :: es) ++ rest =
        encodeRESP e ++ (encodeList es ++ rest) := by
      simp [encodeList, List.append_assoc]
    rw [hsh]
    show readElems fuel (es.length + 1) (encodeRESP e ++ (encodeList es ++ rest)) =
      (.ok (e :: es), rest)
    simp only [readElems, ReadRESP_encodeRESP fuel e hwf.1 hde (encodeList es ++ rest),
      readElems_encodeList fuel es hwf.2 hdes rest]

end

end resp

namespace server

/-- `server.Entry`: the flagged record with two payload fields and an
`isList` bit; `expiresAt` is UnixNano, with any value `≤ 0` (the source
uses `-1`) meaning *never*. -/
structure Entry where
  value : List Nat
  list : List (List Nat)
  isList : Bool
  expiresAt : Int
deriving DecidableEq

/-- `server.NewValueEntry`. -/
def NewValueEntry (value : List Nat) (expiresAt : Int) : Entry :=
  { value := value, list := [], isList := false, expiresAt := expiresAt }

/-- `server.NewListEntry`. -/
def NewListEntry (list : List (List Nat)) (expiresAt : Int) : Entry :=
  { value := [], list := list, isList := true, expiresAt := expiresAt }

/-- `Entry.isExpired`: `e.expiresAt > 0 && time.Now().UnixNano() >
e.expiresAt`; `now` is the explicit clock. -/
def Entry.isExpired (e : Entry) (now : Int) : Bool :=
  decide (e.expiresAt > 0) && decide (now > e.expiresAt)

/-- `server.InMemoryKVStore`: the keyspace map, the expirable key set and
the closed flag (the mutex and close channel have no sequential content;
lock balance is modelled on the cleanup path where it is non-trivial). -/
structure KV where
  store : Key → Option Entry
  expirable : Key → Bool
  closed : Bool

/-- `NewInMemoryKVStore` (initial state). -/
def NewInMemoryKVStore : KV :=
  { store := fun _ => none, expirable := fun _ => false, closed := false }

/-- `InMemoryKVStore.deleteKey`: removes a key from both maps. -/
def KV.deleteKey (kv : KV) (key : Key) : KV :=
  { kv with
    store := fun k => if k = key then none else kv.store k
    expirable := fun k => if k = key then false else kv.expirable k }

/-- `kv.store[key] = e` (map assignment). -/
def KV.putEntry (kv : KV) (key : Key) (e : Entry) : KV :=
  { kv with store := fun k => if k = key then some e else kv.store k }

/-- `InMemoryKVStore.Set`: no-op when closed; registers the key in the
expirable set iff `expiresAt > 0`; stores a fresh string entry. -/
def KV.Set (kv : KV) (key : Key) (value : List Nat) (expiresAt : Int) : KV :=
  if kv.closed then kv
  else
    let kv1 :=
      if expiresAt > 0 then
        { kv with expirable := fun k => if k = key then true else kv.expirable k }
      else kv
    kv1.putEntry key (NewValueEntry value expiresAt)

/-- `InMemoryKVStore.get`: lookup with lazy expiry (an expired entry is
deleted and reported absent). -/
def KV.get (kv : KV) (now : Int) (key : Key) : KV × Option Entry :=
  if kv.closed then (kv, none)
  else
    match kv.store key with
    | none => (kv, none)
    | some entry =>
      if entry.isExpired now then (kv.deleteKey key, none)
      else (kv, some entry)

/-- `InMemoryKVStore.GetValue`: `.ok none` models the Go `(nil, nil)`
"absent" return. -/
def KV.GetValue (kv : KV) (now : Int) (key : Key) :
    KV × Except String (Option (List Nat)) :=
  match kv.get now key with
  | (kv', none) => (kv', .ok none)
  | (kv', some entry) =>
    if entry.isList then
      (kv', .error ("WRONGTYPE Operation against a key holding the wrong kind of value"))
    else (kv', .ok (some entry.value))

/-- `InMemoryKVStore.GetList`. -/
def KV.GetList (kv : KV) (now : Int) (key : Key) :
    KV × Except String (Option (List (List Nat))) :=
  if kv.closed then (kv, .error ("store is closed"))
  else
    match kv.get now key with
    | (kv', none) => (kv', .ok none)
    | (kv', some entry) =>
      if !entry.isList then
        (kv', .error ("WRONGTYPE Operation against a key holding the wrong kind of value"))
      else (kv', .ok (some entry.list))

/-- The `for _, key := range keys` loop of `Delete`: presence in the map
is checked without any expiration test, and a removed key is gone for
later duplicates. -/
def KV.deleteLoop : KV → List Key → Int → KV × Int
  | kv, [], acc => (kv, acc)
  | kv, key :: rest, acc =>
    match kv.store key with
    | some _ => KV.deleteLoop (kv.deleteKey key) rest (acc + 1)
    | none => KV.deleteLoop kv rest acc

/-- `InMemoryKVStore.Delete`. -/
def KV.Delete (kv : KV) (keys : List Key) : KV × Int :=
  if kv.closed then (kv, 0) else KV.deleteLoop kv keys 0

/-- `InMemoryKVStore.Exists`: counts each input position whose entry is
present and not expired (expired entries are skipped, not deleted). -/
def KV.Exists (kv : KV) (now : Int) (keys : List Key) : Int :=
  if kv.closed then 0
  else
    keys.foldl
      (fun acc key =>
        match kv.store key with
        | some entry => if entry.isExpired now then acc else acc + 1
        | none => acc)
      0

/-- `InMemoryKVStore.Expire`: updates the entry's `expiresAt` in place.
Faithful to the source: the key is NOT inserted into the expirable set. -/
def KV.Expire (kv : KV) (now : Int) (key : Key) (expiresAt : Int) : KV × Bool :=
  if kv.closed then (kv, false)
  else
    match kv.store key with
    | none => (kv, false)
    | some entry =>
      if entry.isExpired now then (kv.deleteKey key, false)
      else (kv.putEntry key { entry with expiresAt := expiresAt }, true)

/-- `InMemoryKVStore.Push`: the WRONGTYPE check on `!entry.isList` comes
BEFORE the expiration check, as in the source; an absent or expired-list
key gets a fresh list entry with `expiresAt = -1`. -/
def KV.Push (kv : KV) (now : Int) (key : Key) (values : List (List Nat))
    (pushAtFront : Bool) : KV × Except String Int :=
  if kv.closed then (kv, .error ("store is closed"))
  else
    match kv.store key with
    | some entry =>
      if !entry.isList then
        (kv, .error ("WRONGTYPE Operation against a key holding the wrong kind of value"))
      else if entry.isExpired now then
        let elements := if pushAtFront then util.ReverseSlice values else values
        ((kv.deleteKey key).putEntry key (NewListEntry elements (-1)),
          .ok (elements.length : Int))
      else
        let elements := if pushAtFront then util.ReverseSlice values else values
        let newList :=
          if pushAtFront then elements ++ entry.list else entry.list ++ elements
        (kv.putEntry key { entry with list := newList }, .ok (newList.length : Int))
    | none =>
      let elements := if pushAtFront then util.ReverseSlice values else values
      (kv.putEntry key (NewListEntry elements (-1)), .ok (elements.length : Int))

/-- `InMemoryKVStore.Pop`: WRONGTYPE before the expiration check, as in
the source; the entry is retained even when the list becomes empty. -/
def KV.Pop (kv : KV) (now : Int) (key : Key) (popAtFront : Bool) :
    KV × Except String (Option (List Nat)) :=
  if kv.closed then (kv, .error ("store is closed"))
  else
    match kv.store key with
    | some entry =>
      if !entry.isList then
        (kv, .error ("WRONGTYPE Operation against a key holding the wrong kind of value"))
      else if entry.isExpired now then (kv.deleteKey key, .ok none)
      else if entry.list.isEmpty then (kv, .ok none)
      else if popAtFront then
        (kv.putEntry key { entry with list := entry.list.tail },
          .ok (some (entry.list.headD [])))
      else
        (kv.putEntry key { entry with list := entry.list.dropLast },
          .ok (some (entry.list.getLastD [])))
    | none => (kv, .ok none)

/-- `InMemoryKVStore.Close` (idempotent). -/
def KV.Close (kv : KV) : KV :=
  if kv.closed then kv else { kv with closed := true }

/-- `cleanupCountBound = 25`. -/
def cleanupCountBound : Nat := 25

/-- The body of one iteration of the sweep loop: evict the key if its
entry is expired; prune it from the expirable set if it vanished from the
keyspace. -/
def cleanupInspect (kv : KV) (now : Int) (key : Key) : KV :=
  match kv.store key with
  | some entry => if entry.isExpired now then kv.deleteKey key else kv
  | none => { kv with expirable := fun k => if k = key then false else kv.expirable k }

/-- The `for key := range kv.expirable` loop of one tick of
`cleanupExpiredKeys`, with `order` the map's (arbitrary) iteration order.
The third component counts the `kv.mu.Unlock()` calls performed for the
tick's single `kv.mu.Lock()`: the source unlocks inside the bound check
before `break` and then unconditionally unlocks again after the loop. -/
def cleanupLoop (now : Int) : KV → List Key → Nat → KV × Nat × Nat
  | kv, [], checked => (kv, checked, 1)
  | kv, key :: rest, checked =>
    let kv' := cleanupInspect kv now key
    let checked' := checked + 1
    if checked' ≥ cleanupCountBound then (kv', checked', 2)
    else cleanupLoop now kv' rest checked'

/-- One timer tick of `cleanupExpiredKeys`: `(state, keys checked,
unlock calls)`. -/
def cleanupTick (kv : KV) (now : Int) (order : List Key) : KV × Nat × Nat :=
  cleanupLoop now kv order 0

/-- `server.SetCondition` (`ConditionNone`/`ConditionNX`/`ConditionXX`). -/
inductive SetCondition where
  | ConditionNone
  | ConditionNX
  | ConditionXX
deriving DecidableEq

/-- `server.SetCommand`: `expiration` is the optional `*time.Duration` in
nanoseconds. -/
structure SetCommand where
  Key : List Nat
  Value : List Nat
  expiration : Option Int
  condition : SetCondition
deriving DecidableEq

/-- The element-wise type assertion loop of `parseSetCommand`: every
element must be a `RespBulkString` (a NIL bulk passes the assertion, its
`nil` value converting to the empty string downstream). -/
def asBulkValues : List resp.RVal → Option (List (List Nat))
  | [] => some []
  | .bulk b :: rest => (asBulkValues rest).map (fun vs => (b.getD []) :: vs)
  | _ => none

/-- The option loop of `server.parseSetCommand` (`i` from 3): NX/XX refuse
a second condition; EX/PX take the next element through `ParsePositiveInt`
and store seconds resp. milliseconds as a nanosecond Duration (a later
EX/PX silently overwrites an earlier one, as in the source). The option
byte strings: NX `[78,88]`, XX `[88,88]`, EX `[69,88]`, PX `[80,88]`. -/
def parseSetOptions :
    List (List Nat) → SetCondition → Option Int →
      Except String (SetCondition × Option Int)
  | [], cond, exp => .ok (cond, exp)
  | opt :: rest, cond, exp =>
    if opt = [78, 88] then
      if cond ≠ SetCondition.ConditionNone then
        .error ("SET command can only have one condition (NX or XX)")
      else parseSetOptions rest .ConditionNX exp
    else if opt = [88, 88] then
      if cond ≠ SetCondition.ConditionNone then
        .error ("SET command can only have one condition (NX or XX)")
      else parseSetOptions rest .ConditionXX exp
    else if opt = [69, 88] then
      match rest with
      | [] => .error ("SET command EX option requires an expiration time")
      | t :: rest' =>
        match util.ParsePositiveInt t with
        | none => .error ("invalid expiration time for SET command")
        | some n => parseSetOptions rest' cond (some (n * 1000000000))
    else if opt = [80, 88] then
      match rest with
      | [] => .error ("SET command PX option requires an expiration time")
      | t :: rest' =>
        match util.ParsePositiveInt t with
        | none => .error ("invalid expiration time for SET command")
        | some n => parseSetOptions rest' cond (some (n * 1000000))
    else .error ("unknown option for SET command")

/-- `server.parseSetCommand`. -/
def parseSetCommand (elements : List resp.RVal) : Except String SetCommand :=
  if elements.length < 3 then .error ("SET command requires at least 2 arguments")
  else
    match asBulkValues elements with
    | none => .error ("invalid SET command format: expected bulk strings")
    | some vals =>
      match vals with
      | _ :: key :: value :: opts =>
        match parseSetOptions opts .ConditionNone none with
        | .error e => .error e
        | .ok (cond, exp) =>
          .ok { Key := key, Value := value, expiration := exp, condition := cond }
      | _ => .error ("SET command requires at least 2 arguments")

/-- `server.parseExpireCommand`: result is `(key, TTL as a nanosecond
Duration)`; the unit comes from the command name in element 0 (whose bulk
assertion `ParseCommand` has already established); `[69,88,80,73,82,69]`
is `"EXPIRE"`. -/
def parseExpireCommand (elements : List resp.RVal) :
    Except String (List Nat × Int) :=
  match elements with
  | [cmd0, e1, e2] =>
    match e1 with
    | .bulk kb =>
      match e2 with
      | .bulk tb =>
        match util.ParsePositiveInt (tb.getD []) with
        | none => .error ("invalid TTL value")
        | some ttlInt =>
          match cmd0 with
          | .bulk cb =>
            if cb.getD [] = [69, 88, 80, 73, 82, 69] then
              .ok (kb.getD [], ttlInt * 1000000000)
            else .ok (kb.getD [], ttlInt * 1000000)
          | _ => .error ("interface conversion on the command name")
      | _ =>
        .error ("invalid EXPIRE/PEXPIRE command format: expected bulk string for TTL")
    | _ =>
      .error ("invalid EXPIRE/PEXPIRE command format: expected bulk string for key")
  | _ => .error ("EXPIRE/PEXPIRE command requires exactly 2 arguments")

/-- `Server.handleSetCommand` (src/unnamed/part_006:110-145). The
existence probe is `s.store.GetValue(cmd.Key)`: its error — a WRONGTYPE
when the key holds a list — is encoded and sent back, aborting before
anything is stored. `SET ... NX` on an existing key replies the NIL bulk
string; the XX-on-missing-key branch replies `+OK` (the source encodes a
simple string there, not NIL). Otherwise the absolute expiration is `-1`
(never) or `now + duration`; the engine `Set` runs unless that instant is
exactly 0, and the reply is `+OK`. The second component is the encoded
reply bytes handed to `client.SendMessage`. (Stored values are modelled
non-nil, matching what the parser produces for non-NIL bulks, so the Go
`value != nil` test is `Option.isSome`.) -/
def handleSetCommand (kv : KV) (now : Int) (cmd : SetCommand) : KV × List Nat :=
  match kv.GetValue now cmd.Key with
  | (kv1, .error e) => (kv1, resp.EncodeError (strBytes e))
  | (kv1, .ok value) =>
    if (cmd.condition == SetCondition.ConditionNX) && value.isSome then
      (kv1, resp.EncodeBulkString none)
    else if (cmd.condition == SetCondition.ConditionXX) && !value.isSome then
      (kv1, resp.EncodeSimpleString (strBytes ("OK")))
    else
      let expiresAt : Int :=
        match cmd.expiration with
        | none => -1
        | some d => now + d
      if expiresAt ≠ 0 then
        (kv1.Set cmd.Key cmd.Value expiresAt,
          resp.EncodeSimpleString (strBytes ("OK")))
      else (kv1, resp.EncodeSimpleString (strBytes ("OK")))

/-- `Server.handleLRangeCommand` (src/unnamed/part_006:236-252): fetch
the list via the engine's `GetList`; an engine error (WRONGTYPE on a
string key, or closed) is encoded and sent back; a nil list (absent or
expired key) replies the NIL array `*-1\r\n`; otherwise the
`SliceList`-normalized slice is replied as a bulk-string array (each
stored element lifted to a non-nil bulk). The second component is the
encoded reply bytes. -/
def handleLRangeCommand (kv : KV) (now : Int) (key : Key) (start end' : Int) :
    KV × List Nat :=
  match kv.GetList now key with
  | (kv1, .error e) => (kv1, resp.EncodeError (strBytes e))
  | (kv1, .ok none) => (kv1, resp.EncodeBulkStringArray none)
  | (kv1, .ok (some list)) =>
    (kv1, resp.EncodeBulkStringArray
      (some ((util.SliceList list start end').map some)))

end server

/-- Iteration order with `n` distinct keys, for exercising the sweep. -/
def c1Order (n : Nat) : List Key := (List.range n).map (fun i => [i])

/-- C1 (code bug): one sweep tick of `cleanupExpiredKeys` inspects at most
`cleanupCountBound = 25` keys, but when the expirable set holds 25 or more
keys the loop calls `kv.mu.Unlock()` twice for the tick's single
`kv.mu.Lock()` — once inside the bound check before `break` and once
unconditionally after the loop — which in Go is the fatal runtime error
`sync: Unlock of unlocked RWMutex`; below the bound the tick is balanced
(one unlock). -/
theorem C1_sweep_lock_unbalanced :
    ((server.cleanupTick server.NewInMemoryKVStore 0 (c1Order 25)).2 = (25, 2))
    ∧ ((server.cleanupTick server.NewInMemoryKVStore 0 (c1Order 100)).2 = (25, 2))
    ∧ ((server.cleanupTick server.NewInMemoryKVStore 0 (c1Order 24)).2 = (24, 1)) := by
  refine ⟨?_, ?_, ?_⟩ <;> decide

/-- The claimed expirable-set invariant: every key whose keyspace entry
carries a non-never expiration is a member of the expirable set. -/
def expirableSuperset (kv : server.KV) : Prop :=
  ∀ k e, kv.store k = some e → 0 < e.expiresAt → kv.expirable k = true

/-- Store holding only `k ↦ "v"` with *never* expiration, set while open. -/
def c8Store : server.KV := server.KV.Set server.NewInMemoryKVStore [107] [118] (-1)

/-- C8 (code bug): `Expire` updates the entry's expiration but never
inserts the key into the expirable set: after `Set k v` (no expiration)
and a successful `Expire k 5`, the entry expires at 5 yet `k` is not in
the expirable set, so the sweeper can never reach it — the claimed
invariant fails. -/
theorem C8_expire_skips_expirable_index :
    ((c8Store.Expire 0 [107] 5).2 = true)
    ∧ ((c8Store.Expire 0 [107] 5).1.store [107] =
        some { value := [118], list := [], isList := false, expiresAt := 5 })
    ∧ ((c8Store.Expire 0 [107] 5).1.expirable [107] = false)
    ∧ ¬expirableSuperset (c8Store.Expire 0 [107] 5).1 := by
  refine ⟨by decide, by decide, by decide, ?_⟩
  intro h
  have h2 := h [107] { value := [118], list := [], isList := false, expiresAt := 5 }
    (by decide) (by decide)
  have h3 : (c8Store.Expire 0 [107] 5).1.expirable [107] = false := by decide
  rw [h3] at h2
  exact Bool.false_ne_true h2

/-- Store holding only the string entry `k ↦ "v"` expiring at 1. -/
def c4Store : server.KV := server.KV.Set server.NewInMemoryKVStore [107] [118] 1

/-- C4 counterexample: at time 2 the entry at `k` is an expired string;
the claim says `Push` must then create a fresh list entry (WRONGTYPE only
for present-and-unexpired strings), but the source checks the type before
the expiration and returns WRONGTYPE, leaving the expired entry in place. -/
theorem C4_counterexample :
    ((c4Store.store [107]).map (fun e => (e.isList, e.isExpired 2)) =
      some (false, true))
    ∧ ((c4Store.Push 2 [107] [[97]] true).2 =
        .error ("WRONGTYPE Operation against a key holding the wrong kind of value"))
    ∧ ((c4Store.Push 2 [107] [[97]] true).1.store [107] = c4Store.store [107]) := by
  refine ⟨by decide, by decide, by decide⟩

/-- Store holding only the string entry `k ↦ "v"` expiring at 1. -/
def c5Store : server.KV := server.KV.Set server.NewInMemoryKVStore [107] [118] 1

/-- C5 counterexample: at time 2 the entry at `k` is expired, so the claim
says `DEL k` must return 0; `Delete` never consults expiration and counts
(and removes) the expired-but-present entry, returning 1. -/
theorem C5_counterexample :
    ((c5Store.store [107]).map (fun e => e.isExpired 2) = some true)
    ∧ ((c5Store.Delete [[107]]).2 = 1) := by
  refine ⟨by decide, by decide⟩

/-- C7 counterexample: `SET k v EX 0` and `EXPIRE k 0` parse successfully
(`ParsePositiveInt` rejects only `n < 0`), although 0 is not a strictly
positive integer and the claim says parsing must fail. -/
theorem C7_counterexample :
    ((server.parseSetCommand [.bulk (some (strBytes ("SET"))),
        .bulk (some (strBytes ("k"))), .bulk (some (strBytes ("v"))),
        .bulk (some (strBytes ("EX"))), .bulk (some (strBytes ("0")))]).isOk = true)
    ∧ ((server.parseExpireCommand [.bulk (some (strBytes ("EXPIRE"))),
        .bulk (some (strBytes ("k"))), .bulk (some (strBytes ("0")))]).isOk = true)
    ∧ (util.ParsePositiveInt (strBytes ("0")) = some 0) := by
  refine ⟨by decide, by decide, by decide⟩

/-- C7 (amended): for the well-shaped `SET key value EX ttl` and
`EXPIRE key ttl` commands, parsing succeeds exactly when
`ParsePositiveInt` accepts the TTL bytes, and `ParsePositiveInt` accepts
exactly the parseable integers that are `≥ 0`: negative or non-numeric
arguments are rejected (the parser is pure, so the engine is untouched),
but zero is accepted. -/
theorem C7_parse_rejects_only_negatives (k v ttl : List Nat) :
    ((server.parseSetCommand [.bulk (some (strBytes ("SET"))), .bulk (some k),
        .bulk (some v), .bulk (some [69, 88]), .bulk (some ttl)]).isOk
      = (util.ParsePositiveInt ttl).isSome)
    ∧ ((server.parseExpireCommand [.bulk (some [69, 88, 80, 73, 82, 69]),
        .bulk (some k), .bulk (some ttl)]).isOk
      = (util.ParsePositiveInt ttl).isSome)
    ∧ ((util.ParsePositiveInt ttl).isSome =
        (util.goAtoi ttl).elim false (fun n => decide (0 ≤ n))) := by
  refine ⟨?_, ?_, ?_⟩
  · cases h : util.ParsePositiveInt ttl <;>
      simp [server.parseSetCommand, server.asBulkValues, server.parseSetOptions, h,
        Except.isOk, Except.toBool]
  · cases h : util.ParsePositiveInt ttl <;>
      simp [server.parseExpireCommand, h, Except.isOk, Except.toBool]
  · unfold util.ParsePositiveInt
    cases h : util.goAtoi ttl with
    | none => simp
    | some n =>
      by_cases hn : n < 0
      · have hn2 : ¬(0 ≤ n) := by omega
        simp [hn, hn2]
      · have hn2 : 0 ≤ n := by omega
        simp [hn, hn2]

/-- C6 (code bug): a bulk-string or array header whose declared length is
negative and not exactly −1 makes the decoder panic at runtime instead of
returning a tagged codec error: `$-2\r\n` passes `make([]byte, count+2)`
but indexes out of range inside `hasValidTerminator(bytes, -2)`;
`$-5\r\n` panics in `make([]byte, count+2)`; `*-2\r\n` panics in
`make([]RespValue, 0, count)`. A length of exactly −1 decodes to NIL, as
the claim also states. (`[45,50,13,10]` is `-2\r\n` after the tag byte,
`[45,53,13,10]` is `-5\r\n`, `[45,49,13,10]` is `-1\r\n`.) -/
theorem C6_negative_length_panics :
    (resp.ReadBulkString [45, 50, 13, 10] =
      (.panicked ("runtime error: index out of range"), []))
    ∧ (resp.ReadBulkString [45, 53, 13, 10] =
      (.panicked ("runtime error: makeslice: len out of range"), []))
    ∧ (resp.ReadArray 5 [45, 50, 13, 10] =
      (.panicked ("runtime error: makeslice: cap out of range"), []))
    ∧ (resp.ReadBulkString [45, 49, 13, 10] = (.ok none, [])) := by
  refine ⟨by decide, by decide, ?_, by decide⟩
  simp [resp.ReadArray, resp.readAndParseLength, resp.readBytesLF,
    resp.trimSuffixCRLF, util.goAtoi, util.goParseInt64, util.parseDigits,
    util.parseDigitsAux, util.int64MinAbs, util.int64Max]

/-- Store holding `k ↦ "v"` with *never* expiration, for the NX case. -/
def c2Store : server.KV := server.KV.Set server.NewInMemoryKVStore [107] [118] (-1)

/-- C2 (code bug): on an XX precondition failure (missing key) the real
`handleSetCommand` (src/unnamed/part_006:124-128) replies `+OK\r\n`
(bytes `[43,79,75,13,10]`, a simple string) while storing nothing — not
the claimed NIL bulk string `$-1\r\n` (bytes `[36,45,49,13,10]`). The
NX failure branch does reply the NIL bulk string, and an unconditional
SET replies `+OK`, as the remaining conjuncts show. -/
theorem C2_xx_precondition_fail_replies_ok :
    ((server.handleSetCommand server.NewInMemoryKVStore 0
        ⟨[107], [118], none, .ConditionXX⟩).2 = [43, 79, 75, 13, 10])
    ∧ ((server.handleSetCommand server.NewInMemoryKVStore 0
        ⟨[107], [118], none, .ConditionXX⟩).1.store [107] = none)
    ∧ ((server.handleSetCommand c2Store 0
        ⟨[107], [119], none, .ConditionNX⟩).2 = [36, 45, 49, 13, 10])
    ∧ ((server.handleSetCommand server.NewInMemoryKVStore 0
        ⟨[107], [118], none, .ConditionNone⟩).2 = [43, 79, 75, 13, 10]) := by
  refine ⟨by decide, by decide, by decide, by decide⟩

/-- Store whose only key `k` holds the one-element list `["x"]`, created
by RPUSH on the fresh store. -/
def c3ListStore : server.KV :=
  (server.NewInMemoryKVStore.Push 0 [107] [[120]] false).1

/-- Store holding the string entry `k ↦ "v"` with *never* expiration. -/
def c3StrStore : server.KV :=
  server.KV.Set server.NewInMemoryKVStore [107] [118] (-1)

/-- C3 (code bug): a SET with no condition on a key currently holding a
list does NOT replace it: the handler's `GetValue` existence probe
(src/unnamed/part_006:111-116) returns the WRONGTYPE error, which is
encoded and sent as the reply, aborting before the engine's `Set` runs —
the list entry survives and no `+OK` is sent. On a string key the claimed
behaviour does hold: the entry is replaced, the reply is `+OK\r\n`, and
a subsequent GET returns the new value, as the last two conjuncts show. -/
theorem C3_set_on_list_key_errors :
    ((server.handleSetCommand c3ListStore 0
        ⟨[107], [118], none, .ConditionNone⟩).2 =
      resp.EncodeError (strBytes
        ("WRONGTYPE Operation against a key holding the wrong kind of value")))
    ∧ ((server.handleSetCommand c3ListStore 0
        ⟨[107], [118], none, .ConditionNone⟩).1.store [107] =
      some (server.NewListEntry [[120]] (-1)))
    ∧ ((server.handleSetCommand c3StrStore 0
        ⟨[107], [119], none, .ConditionNone⟩).2 = [43, 79, 75, 13, 10])
    ∧ (((server.handleSetCommand c3StrStore 0
        ⟨[107], [119], none, .ConditionNone⟩).1.GetValue 0 [107]).2 =
      .ok (some [119])) := by
  refine ⟨by decide, by decide, by decide, by decide⟩

/-- C4 (amended): `Push` creates a new list entry with never expiration
(`expiresAt = -1`) when the key is absent or when the present entry is an
expired LIST; it returns WRONGTYPE whenever the stored entry is a string,
even one already expired — the source checks the type before the
expiration, so an expired string is not re-created as a list. -/
theorem C4_push_type_check_first (kv : server.KV) (now : Int) (k : Key)
    (vs : List (List Nat)) (front : Bool) (hopen : kv.closed = false) :
    (kv.store k = none →
      (kv.Push now k vs front).1.store k =
          some (server.NewListEntry (if front then vs.reverse else vs) (-1))
        ∧ (kv.Push now k vs front).2 =
          .ok (((if front then vs.reverse else vs).length : Nat) : Int))
    ∧ (∀ e, kv.store k = some e → e.isList = true → e.isExpired now = true →
      (kv.Push now k vs front).1.store k =
          some (server.NewListEntry (if front then vs.reverse else vs) (-1))
        ∧ (kv.Push now k vs front).2 =
          .ok (((if front then vs.reverse else vs).length : Nat) : Int))
    ∧ (∀ e, kv.store k = some e → e.isList = false →
      (kv.Push now k vs front) =
        (kv, .error ("WRONGTYPE Operation against a key holding the wrong kind of value")))
    ∧ (∀ e, kv.store k = some e → e.isList = true → e.isExpired now = false →
      (kv.Push now k vs front).1.store k =
        some { e with list := if front then vs.reverse ++ e.list else e.list ++ vs }) := by
  refine ⟨?_, ?_, ?_, ?_⟩
  · intro habsent
    constructor <;>
      cases front <;>
        simp [server.KV.Push, hopen, habsent, util.ReverseSlice, server.KV.putEntry]
  · intro e he helist hexp
    constructor <;>
      cases front <;>
        simp [server.KV.Push, hopen, he, helist, hexp, util.ReverseSlice,
          server.KV.putEntry, server.KV.deleteKey]
  · intro e he helist
    simp [server.KV.Push, hopen, he, helist]
  · intro e he helist hexp
    cases front <;>
      simp [server.KV.Push, hopen, he, helist, hexp, util.ReverseSlice,
        server.KV.putEntry]

/-- Store whose only key holds an expired LIST entry at time 2: RPUSH then
EXPIRE 1 (list `[ "x" ]`, expires at 1). -/
def c4wStore : server.KV :=
  ((server.NewInMemoryKVStore.Push 0 [76] [[120]] false).1.Expire 0 [76] 1).1

theorem C4_witness :
    (c4wStore.Push 2 [76] [[98]] true).1.store [76] =
      some (server.NewListEntry [[98]] (-1)) := by
  have h := (C4_push_type_check_first c4wStore 2 [76] [[98]] true (by decide)).2.1
    { value := [], list := [[120]], isList := true, expiresAt := 1 }
    (by decide) (by decide) (by decide)
  simpa using h.1

theorem card_insert_erase (s : Finset Key) (a : Key) :
    (insert a s).card = (s.erase a).card + 1 := by
  by_cases ha : a ∈ s
  · rw [Finset.insert_eq_self.mpr ha]
    exact (Finset.card_erase_add_one ha).symm
  · rw [Finset.erase_eq_of_not_mem ha, Finset.card_insert_of_not_mem ha]

theorem deleteLoop_spec (keys : List Key) :
    ∀ (kv : server.KV) (acc : Int),
      (server.KV.deleteLoop kv keys acc).2 =
        acc + ((keys.toFinset.filter (fun x => (kv.store x).isSome = true)).card : Int) := by
  induction keys with
  | nil =>
    intro kv acc
    simp [server.KV.deleteLoop]
  | cons k rest ih =>
    intro kv acc
    by_cases hk : (kv.store k).isSome = true
    · obtain ⟨e, he⟩ := Option.isSome_iff_exists.mp hk
      simp only [server.KV.deleteLoop, he]
      rw [ih]
      have hps : (rest.toFinset.filter
            (fun x => (((kv.deleteKey k).store x).isSome = true)))
          = (rest.toFinset.filter (fun x => ((kv.store x).isSome = true))).erase k := by
        ext x
        by_cases hxk : x = k
        · simp [server.KV.deleteKey, Finset.mem_filter, Finset.mem_erase, hxk]
        · simp [server.KV.deleteKey, Finset.mem_filter, Finset.mem_erase, hxk,
            and_comm]
      have hins : ((k :: rest).toFinset.filter
            (fun x => ((kv.store x).isSome = true)))
          = insert k (rest.toFinset.filter (fun x => ((kv.store x).isSome = true))) := by
        simp [List.toFinset_cons, Finset.filter_insert, hk]
      rw [hps, hins, card_insert_erase]
      push_cast
      ring
    · have hnone : kv.store k = none := by
        cases hs : kv.store k
        · rfl
        · rw [hs] at hk
          simp at hk
      simp only [server.KV.deleteLoop, hnone]
      rw [ih]
      have hskip : ((k :: rest).toFinset.filter
            (fun x => ((kv.store x).isSome = true)))
          = rest.toFinset.filter (fun x => ((kv.store x).isSome = true)) := by
        have : ¬((kv.store k).isSome = true) := hk
        simp [List.toFinset_cons, Finset.filter_insert, this]
      rw [hskip]

/-- C5 (amended): on an open engine, `Delete` returns exactly the number
of DISTINCT keys among the inputs whose entries were present in the
keyspace at the moment of the call — whether or not already expired:
duplicates count once (the second lookup sees absence), but an
expired-yet-present entry is removed and counted, since `Delete` never
consults expiration. -/
theorem C5_delete_counts_present (kv : server.KV) (keys : List Key)
    (hopen : kv.closed = false) :
    (kv.Delete keys).2 =
      ((keys.toFinset.filter (fun x => (kv.store x).isSome = true)).card : Int) := by
  unfold server.KV.Delete
  rw [if_neg (by simp [hopen])]
  rw [deleteLoop_spec keys kv 0]
  ring

/-- Store holding `[1] ↦ "a"` and `[2] ↦ "a"`. -/
def c5wStore : server.KV :=
  (server.NewInMemoryKVStore.Set [1] [97] (-1)).Set [2] [97] (-1)

theorem C5_witness : (c5wStore.Delete [[1], [2], [1], [9]]).2 = 2 := by
  rw [C5_delete_counts_present c5wStore [[1], [2], [1], [9]] (by decide)]
  decide

/-- C9: for every RESP value `v` — NIL and non-NIL bulk strings of any
length, integers, NIL and nested arrays, and simple strings and errors
containing no CR or LF (`wfRV`) — decoding the encoder's output for `v`
yields `v` again and consumes exactly the encoding, for any recursion
budget above the value's nesting depth (the Go decoder's stack). -/
theorem C9_decode_encode_roundtrip (v : resp.RVal) (hwf : resp.wfRV v = true)
    (fuel : Nat) (hd : resp.depthRV v ≤ fuel) :
    resp.ReadRESP fuel (resp.encodeRESP v) = (.ok v, []) := by
  have h := resp.ReadRESP_encodeRESP fuel v hwf hd []
  simpa using h

/-- A nested RESP value exercising every kind: an array holding a bulk
string `"hello"`, a NIL bulk, an integer, a simple string `"OK"`, an
error `"ERR"`, a NIL array, and a nested array with an empty bulk. -/
def c9Example : resp.RVal :=
  .arr (some [.bulk (some [104, 101, 108, 108, 111]), .bulk none, .intv (-42),
    .simple [79, 75], .errv [69, 82, 82], .arr none,
    .arr (some [.bulk (some [])])])

theorem C9_witness :
    resp.ReadRESP 3 (resp.encodeRESP c9Example) = (.ok c9Example, []) :=
  C9_decode_encode_roundtrip c9Example (by decide) 3 (by decide)

/-- C10: on a fresh key, LPUSH `a b c` stores `[c, b, a]` (each value
pushed one-by-one onto the front, i.e. the argument order reversed in the
stored prefix) and RPUSH stores `[a, b, c]`; `handleLRangeCommand` with
`0 -1` then replies the whole stored list as a bulk-string array after
`SliceList` index normalization (`SliceList l 0 (-1) = l` in general);
and a push onto an existing unexpired list prepends the reversed values
(LPUSH) or appends them in argument order (RPUSH). -/
theorem C10_push_order_lrange (kv kv2 : server.KV) (now : Int) (k : Key)
    (a b c : List Nat) (vs l : List (List Nat)) (e : server.Entry)
    (hopen : kv.closed = false) (habsent : kv.store k = none)
    (hopen2 : kv2.closed = false) (hlist : kv2.store k = some e)
    (helist : e.isList = true) (hfresh : e.isExpired now = false) :
    ((server.handleLRangeCommand (kv.Push now k [a, b, c] true).1 now k 0 (-1)).2 =
      resp.EncodeBulkStringArray (some [some c, some b, some a]))
    ∧ ((server.handleLRangeCommand (kv.Push now k [a, b, c] false).1 now k 0 (-1)).2 =
      resp.EncodeBulkStringArray (some [some a, some b, some c]))
    ∧ (util.SliceList l 0 (-1) = l)
    ∧ ((kv.Push now k vs true).1.store k =
        some (server.NewListEntry vs.reverse (-1)))
    ∧ ((kv.Push now k vs false).1.store k = some (server.NewListEntry vs (-1)))
    ∧ ((kv2.Push now k vs true).1.store k =
        some { e with list := vs.reverse ++ e.list })
    ∧ ((kv2.Push now k vs false).1.store k =
        some { e with list := e.list ++ vs }) := by
  refine ⟨?_, ?_, util.SliceList_zero_neg_one l, ?_, ?_, ?_, ?_⟩
  · simp [server.handleLRangeCommand, server.KV.GetList, server.KV.get,
      server.KV.Push, server.KV.putEntry, server.NewListEntry,
      util.ReverseSlice, server.Entry.isExpired, hopen, habsent,
      util.SliceList_zero_neg_one]
  · simp [server.handleLRangeCommand, server.KV.GetList, server.KV.get,
      server.KV.Push, server.KV.putEntry, server.NewListEntry,
      util.ReverseSlice, server.Entry.isExpired, hopen, habsent,
      util.SliceList_zero_neg_one]
  · simp [server.KV.Push, hopen, habsent, util.ReverseSlice, server.KV.putEntry]
  · simp [server.KV.Push, hopen, habsent, util.ReverseSlice, server.KV.putEntry]
  · simp [server.KV.Push, hopen2, hlist, helist, hfresh, util.ReverseSlice,
      server.KV.putEntry]
  · simp [server.KV.Push, hopen2, hlist, helist, hfresh, util.ReverseSlice,
      server.KV.putEntry]

/-- Store whose key `L` holds the one-element list `["x"]`. -/
def c10wList : server.KV := (server.NewInMemoryKVStore.Push 0 [76] [[120]] false).1

theorem C10_witness :
    (server.handleLRangeCommand
        ((server.NewInMemoryKVStore.Push 0 [76] [[97], [98], [99]] true).1)
        0 [76] 0 (-1)).2
      = resp.EncodeBulkStringArray (some [some [99], some [98], some [97]]) := by
  have h := C10_push_order_lrange server.NewInMemoryKVStore c10wList 0 [76]
    [97] [98] [99] [] [] (server.NewListEntry [[120]] (-1))
    (by decide) (by decide) (by decide) (by decide) (by decide) (by decide)
  exact h.1

end GopherStore
